import Mathlib

/-!
Shallow embedding of the Grain-128AEADv2 implementation (repository
itzmeanjan/grain-128aead) and proofs about it.

Bytes are modelled as `Nat` values; the well-formedness predicates below
require them to be `< 256`.  Byte arrays (`uint8_t[16]`, `uint8_t[8]`, message
buffers) are modelled as `List Nat`.  Every `uint8_t` store in the C++ source
is mirrored by an explicit `% 256` truncation.  Fixed-count C++ `for` loops
become folds over `List.range`; loops that walk an input buffer become
structural recursion over the corresponding list, reading the same elements in
the same order.
-/

namespace grain_128

/-- Grain-128 AEAD state (`grain_128::state_t`): 128-bit LFSR and NFSR as 16
bytes each, 64-bit accumulator and shift register as 8 bytes each. -/
structure state_t where
  lfsr : List Nat
  nfsr : List Nat
  acc : List Nat
  sreg : List Nat
  deriving DecidableEq, Repr

/-- Well-formedness of a byte buffer: every entry is an 8-bit value. -/
def bytesWF (xs : List Nat) : Prop := ∀ x ∈ xs, x < 256

instance (xs : List Nat) : Decidable (bytesWF xs) := by
  unfold bytesWF; infer_instance

/-- Well-formed cipher state: registers have their C++ array lengths and all
bytes are 8-bit values. -/
def stateWF (st : state_t) : Prop :=
  st.lfsr.length = 16 ∧ st.nfsr.length = 16 ∧ st.acc.length = 8 ∧
    st.sreg.length = 8 ∧ bytesWF st.lfsr ∧ bytesWF st.nfsr ∧
    bytesWF st.acc ∧ bytesWF st.sreg

instance (st : state_t) : Decidable (stateWF st) := by
  unfold stateWF; infer_instance

/-- Transcription of `grain_128::compute_index`: split a bit index into byte
offset and bit offset. -/
def compute_index (idx : Nat) : Nat × Nat := (idx >>> 3, idx &&& 7)

/-- Transcription of `grain_128::get_bit`: read one bit of a byte array,
returned in the least significant position. -/
def get_bit (arr : List Nat) (idx : Nat × Nat) : Nat :=
  ((arr.getD idx.1 0) >>> idx.2) &&& 1

/-- Transcription of `grain_128::set_bit`: store the least significant bit of
`bit` at the given byte/bit offset. -/
def set_bit (arr : List Nat) (bit : Nat) (idx : Nat × Nat) : List Nat :=
  let byte := arr.getD idx.1 0
  let mask0 := (0xFF <<< (idx.2 + 1)) % 256
  let mask1 := 0xFF >>> (8 - idx.2)
  let msb := byte &&& mask0
  let lsb := byte &&& mask1
  arr.set idx.1 ((msb ||| ((bit <<< idx.2) ||| lsb)) % 256)

/-- Transcription of `grain_128::get_8bits`: extract the 8 consecutive bits
starting at bit index `sidx` of a byte array. -/
def get_8bits (arr : List Nat) (sidx : Nat) : Nat :=
  let eidx := sidx + 7
  let sidx_ := compute_index sidx
  let eidx_ := compute_index eidx
  let lo := (arr.getD sidx_.1 0) >>> sidx_.2
  let hi := ((arr.getD eidx_.1 0) <<< (7 - eidx_.2)) % 256
  let flg : Bool := (sidx &&& 7) == 0
  hi ||| (lo * (if flg then 0 else 1))

/-- Transcription of the single-bit `grain_128::h`: the nine-tap nonlinear
filter, one bit per call. -/
def h (st : state_t) : Nat :=
  let x0 := get_bit st.nfsr (compute_index 12)
  let x1 := get_bit st.lfsr (compute_index 8)
  let x2 := get_bit st.lfsr (compute_index 13)
  let x3 := get_bit st.lfsr (compute_index 20)
  let x4 := get_bit st.nfsr (compute_index 95)
  let x5 := get_bit st.lfsr (compute_index 42)
  let x6 := get_bit st.lfsr (compute_index 60)
  let x7 := get_bit st.lfsr (compute_index 79)
  let x8 := get_bit st.lfsr (compute_index 94)
  ((x0 &&& x1) ^^^ (x2 &&& x3)) ^^^ ((x4 &&& x5) ^^^ (x6 &&& x7)) ^^^
    (x0 &&& x4 &&& x8)

/-- Transcription of the single-bit `grain_128::ksb`: one pre-output bit. -/
def ksb (st : state_t) : Nat :=
  let hx := h st
  let s93 := get_bit st.lfsr (compute_index 93)
  let b2 := get_bit st.nfsr (compute_index 2)
  let b15 := get_bit st.nfsr (compute_index 15)
  let b36 := get_bit st.nfsr (compute_index 36)
  let b45 := get_bit st.nfsr (compute_index 45)
  let b64 := get_bit st.nfsr (compute_index 64)
  let b73 := get_bit st.nfsr (compute_index 73)
  let b89 := get_bit st.nfsr (compute_index 89)
  let bt := b2 ^^^ b15 ^^^ b36 ^^^ b45 ^^^ b64 ^^^ b73 ^^^ b89
  hx ^^^ s93 ^^^ bt

/-- Transcription of the single-bit `grain_128::l`: the next LFSR feedback
bit. -/
def l (st : state_t) : Nat :=
  let s0 := get_bit st.lfsr (compute_index 0)
  let s7 := get_bit st.lfsr (compute_index 7)
  let s38 := get_bit st.lfsr (compute_index 38)
  let s70 := get_bit st.lfsr (compute_index 70)
  let s81 := get_bit st.lfsr (compute_index 81)
  let s96 := get_bit st.lfsr (compute_index 96)
  s0 ^^^ s7 ^^^ s38 ^^^ s70 ^^^ s81 ^^^ s96

/-- Transcription of the single-bit `grain_128::f`: the next NFSR feedback
bit. -/
def f (st : state_t) : Nat :=
  let s0 := get_bit st.lfsr (compute_index 0)
  let b0 := get_bit st.nfsr (compute_index 0)
  let b26 := get_bit st.nfsr (compute_index 26)
  let b56 := get_bit st.nfsr (compute_index 56)
  let b91 := get_bit st.nfsr (compute_index 91)
  let b96 := get_bit st.nfsr (compute_index 96)
  let b3 := get_bit st.nfsr (compute_index 3)
  let b67 := get_bit st.nfsr (compute_index 67)
  let b11 := get_bit st.nfsr (compute_index 11)
  let b13 := get_bit st.nfsr (compute_index 13)
  let b17 := get_bit st.nfsr (compute_index 17)
  let b18 := get_bit st.nfsr (compute_index 18)
  let b27 := get_bit st.nfsr (compute_index 27)
  let b59 := get_bit st.nfsr (compute_index 59)
  let b40 := get_bit st.nfsr (compute_index 40)
  let b48 := get_bit st.nfsr (compute_index 48)
  let b61 := get_bit st.nfsr (compute_index 61)
  let b65 := get_bit st.nfsr (compute_index 65)
  let b68 := get_bit st.nfsr (compute_index 68)
  let b84 := get_bit st.nfsr (compute_index 84)
  let b22 := get_bit st.nfsr (compute_index 22)
  let b24 := get_bit st.nfsr (compute_index 24)
  let b25 := get_bit st.nfsr (compute_index 25)
  let b70 := get_bit st.nfsr (compute_index 70)
  let b78 := get_bit st.nfsr (compute_index 78)
  let b82 := get_bit st.nfsr (compute_index 82)
  let b88 := get_bit st.nfsr (compute_index 88)
  let b92 := get_bit st.nfsr (compute_index 92)
  let b93 := get_bit st.nfsr (compute_index 93)
  let b95 := get_bit st.nfsr (compute_index 95)
  let t0 := b0 ^^^ b26 ^^^ b56 ^^^ b91 ^^^ b96
  let t1 := b3 &&& b67
  let t2 := b11 &&& b13
  let t3 := b17 &&& b18
  let t4 := b27 &&& b59
  let t5 := b40 &&& b48
  let t6 := b61 &&& b65
  let t7 := b68 &&& b84
  let t8 := b22 &&& b24 &&& b25
  let t9 := b70 &&& b78 &&& b82
  let t10 := b88 &&& b92 &&& b93 &&& b95
  let fbt := t0 ^^^ t1 ^^^ t2 ^^^ t3 ^^^ t4 ^^^ t5 ^^^ t6 ^^^ t7 ^^^ t8 ^^^
    t9 ^^^ t10
  s0 ^^^ fbt

/-- Transcription of the single-bit `grain_128::update`: drop bit 0, shift
every bit down by one, append `bit127` at position 127.  Each C++ line
`reg[i] = (s << 7) | (reg[i] >> 1)` is the `i`-th entry of the produced list;
the high bit of byte `i < 15` comes from bit `8 * i + 8` of the old register,
and byte 15 receives `bit127`. -/
def update (reg : List Nat) (bit127 : Nat) : List Nat :=
  (List.range 16).map fun i =>
    if i < 15 then
      ((get_bit reg (compute_index (8 * i + 8)) <<< 7) |||
        ((reg.getD i 0) >>> 1)) % 256
    else ((bit127 <<< 7) ||| ((reg.getD 15 0) >>> 1)) % 256

/-- Transcription of `grain_128::update_lfsr` (single-bit variant). -/
def update_lfsr (st : state_t) (s127 : Nat) : state_t :=
  { st with lfsr := update st.lfsr s127 }

/-- Transcription of `grain_128::update_nfsr` (single-bit variant). -/
def update_nfsr (st : state_t) (b127 : Nat) : state_t :=
  { st with nfsr := update st.nfsr b127 }

/-- Transcription of `grain_128::update_accumulator`: XOR `sreg AND widened`
into the accumulator, where `widened` broadcasts the single message bit. -/
def update_accumulator (st : state_t) (msg : Nat) : state_t :=
  let widened := [0x00, 0xFF].getD msg 0
  { st with
    acc := (List.range 8).map fun i =>
      (st.acc.getD i 0) ^^^ ((st.sreg.getD i 0) &&& widened) }

/-- Transcription of `grain_128::update_register`: shift the 64-bit
authentication shift register down by one and insert `auth` as its new top
bit.  Byte `i < 7` takes its high bit from bit `8 * i + 8` of the old
register. -/
def update_register (st : state_t) (auth : Nat) : state_t :=
  { st with
    sreg := (List.range 8).map fun i =>
      if i < 7 then
        ((get_bit st.sreg (compute_index (8 * i + 8)) <<< 7) |||
          ((st.sreg.getD i 0) >>> 1)) % 256
      else ((auth <<< 7) ||| ((st.sreg.getD 7 0) >>> 1)) % 256 }

/-- Transcription of the 8-wide `h` (named `h8` in the source variant that
carries both widths): the same nine taps, extracted as 8-bit slices. -/
def h8 (st : state_t) : Nat :=
  let x0 := get_8bits st.nfsr 12
  let x1 := get_8bits st.lfsr 8
  let x2 := get_8bits st.lfsr 13
  let x3 := get_8bits st.lfsr 20
  let x4 := get_8bits st.nfsr 95
  let x5 := get_8bits st.lfsr 42
  let x6 := get_8bits st.lfsr 60
  let x7 := get_8bits st.lfsr 79
  let x8 := get_8bits st.lfsr 94
  ((x0 &&& x1) ^^^ (x2 &&& x3)) ^^^ ((x4 &&& x5) ^^^ (x6 &&& x7)) ^^^
    (x0 &&& x4 &&& x8)

/-- Transcription of the 8-wide `ksb8`: eight pre-output bits per call. -/
def ksb8 (st : state_t) : Nat :=
  let hx := h8 st
  let s93 := get_8bits st.lfsr 93
  let b2 := get_8bits st.nfsr 2
  let b15 := get_8bits st.nfsr 15
  let b36 := get_8bits st.nfsr 36
  let b45 := get_8bits st.nfsr 45
  let b64 := get_8bits st.nfsr 64
  let b73 := get_8bits st.nfsr 73
  let b89 := get_8bits st.nfsr 89
  let bt := b2 ^^^ b15 ^^^ b36 ^^^ b45 ^^^ b64 ^^^ b73 ^^^ b89
  hx ^^^ s93 ^^^ bt

/-- Transcription of the 8-wide `l8`: eight LFSR feedback bits per call. -/
def l8 (st : state_t) : Nat :=
  let s0 := get_8bits st.lfsr 0
  let s7 := get_8bits st.lfsr 7
  let s38 := get_8bits st.lfsr 38
  let s70 := get_8bits st.lfsr 70
  let s81 := get_8bits st.lfsr 81
  let s96 := get_8bits st.lfsr 96
  s0 ^^^ s7 ^^^ s38 ^^^ s70 ^^^ s81 ^^^ s96

/-- Transcription of the 8-wide `f8`: eight NFSR feedback bits per call. -/
def f8 (st : state_t) : Nat :=
  let s0 := get_8bits st.lfsr 0
  let b0 := get_8bits st.nfsr 0
  let b26 := get_8bits st.nfsr 26
  let b56 := get_8bits st.nfsr 56
  let b91 := get_8bits st.nfsr 91
  let b96 := get_8bits st.nfsr 96
  let b3 := get_8bits st.nfsr 3
  let b67 := get_8bits st.nfsr 67
  let b11 := get_8bits st.nfsr 11
  let b13 := get_8bits st.nfsr 13
  let b17 := get_8bits st.nfsr 17
  let b18 := get_8bits st.nfsr 18
  let b27 := get_8bits st.nfsr 27
  let b59 := get_8bits st.nfsr 59
  let b40 := get_8bits st.nfsr 40
  let b48 := get_8bits st.nfsr 48
  let b61 := get_8bits st.nfsr 61
  let b65 := get_8bits st.nfsr 65
  let b68 := get_8bits st.nfsr 68
  let b84 := get_8bits st.nfsr 84
  let b22 := get_8bits st.nfsr 22
  let b24 := get_8bits st.nfsr 24
  let b25 := get_8bits st.nfsr 25
  let b70 := get_8bits st.nfsr 70
  let b78 := get_8bits st.nfsr 78
  let b82 := get_8bits st.nfsr 82
  let b88 := get_8bits st.nfsr 88
  let b92 := get_8bits st.nfsr 92
  let b93 := get_8bits st.nfsr 93
  let b95 := get_8bits st.nfsr 95
  let t0 := b0 ^^^ b26 ^^^ b56 ^^^ b91 ^^^ b96
  let t1 := b3 &&& b67
  let t2 := b11 &&& b13
  let t3 := b17 &&& b18
  let t4 := b27 &&& b59
  let t5 := b40 &&& b48
  let t6 := b61 &&& b65
  let t7 := b68 &&& b84
  let t8 := b22 &&& b24 &&& b25
  let t9 := b70 &&& b78 &&& b82
  let t10 := b88 &&& b92 &&& b93 &&& b95
  let fbt := t0 ^^^ t1 ^^^ t2 ^^^ t3 ^^^ t4 ^^^ t5 ^^^ t6 ^^^ t7 ^^^ t8 ^^^
    t9 ^^^ t10
  s0 ^^^ fbt

/-- Transcription of the 8-wide `update8`: drop the lowest byte, move every
byte down, append the new top byte. -/
def update8 (reg : List Nat) (bit120 : Nat) : List Nat :=
  (List.range 16).map fun i =>
    if i < 15 then reg.getD (i + 1) 0 else bit120

/-- Transcription of `update_lfsr8`. -/
def update_lfsr8 (st : state_t) (s120 : Nat) : state_t :=
  { st with lfsr := update8 st.lfsr s120 }

/-- Transcription of `update_nfsr8`. -/
def update_nfsr8 (st : state_t) (b120 : Nat) : state_t :=
  { st with nfsr := update8 st.nfsr b120 }

/-- Transcription of `grain_128::from_le_bytes`: little-endian 64-bit load of
8 bytes. -/
def from_le_bytes (bytes : List Nat) : Nat :=
  ((bytes.getD 7 0) <<< 56) ||| ((bytes.getD 6 0) <<< 48) |||
    ((bytes.getD 5 0) <<< 40) ||| ((bytes.getD 4 0) <<< 32) |||
    ((bytes.getD 3 0) <<< 24) ||| ((bytes.getD 2 0) <<< 16) |||
    ((bytes.getD 1 0) <<< 8) ||| ((bytes.getD 0 0) <<< 0)

/-- Transcription of `grain_128::to_le_bytes`: little-endian 64-bit store into
8 bytes. -/
def to_le_bytes (v : Nat) : List Nat :=
  (List.range 8).map fun i => (v >>> (i <<< 3)) % 256

/-- Single step of `grain_128::authenticated_byte`: one accumulator update and
one shift-register update on the 64-bit local values. -/
def auth_step (msg ksb : Nat) (i : Nat) (p : Nat × Nat) : Nat × Nat :=
  let br : List Nat := [0, 0xFFFFFFFFFFFFFFFF]
  let m := (msg >>> i) &&& 1
  let k := (ksb >>> i) &&& 1
  (p.1 ^^^ ((br.getD m 0) &&& p.2), (p.2 >>> 1) ||| (k <<< 63))

/-- Transcription of `grain_128::authenticated_byte`: absorb eight message
bits with eight odd pre-output bits, eight unrolled steps on 64-bit values.
The C++ source is a literal eight-fold unrolling of `auth_step` at indices 0
to 7. -/
def authenticated_byte (st : state_t) (msg ksb : Nat) : state_t :=
  let acc0 := from_le_bytes st.acc
  let sreg0 := from_le_bytes st.sreg
  let p := auth_step msg ksb 7 (auth_step msg ksb 6 (auth_step msg ksb 5
    (auth_step msg ksb 4 (auth_step msg ksb 3 (auth_step msg ksb 2
      (auth_step msg ksb 1 (auth_step msg ksb 0 (acc0, sreg0))))))))
  { st with acc := to_le_bytes p.1, sreg := to_le_bytes p.2 }

end grain_128

namespace aead

open grain_128

/-- Transcription of `aead::encode_der`: DER-encode the associated-data
length into a 9-byte buffer, returning the buffer and the number of useful
bytes.  `std::bit_width` is modelled in place by `Nat.log2` plus one on
nonzero input. -/
def encode_der (dlen : Nat) : List Nat × Nat :=
  let der := List.replicate 9 0
  if dlen < 128 then
    (der.set 0 (dlen % 256), 1)
  else
    let bw := if dlen = 0 then 0 else Nat.log2 dlen + 1
    let fcbc := (bw >>> 3) + (if (bw &&& 7) > 0 then 1 else 0)
    let der := der.set 0 ((0x80 ^^^ fcbc) % 256)
    let der := (List.range fcbc).foldl
      (fun d j =>
        let mask := 0xFF <<< ((fcbc - (j + 1)) <<< 3)
        d.set (j + 1) (((dlen &&& mask) >>> ((fcbc - (j + 1)) <<< 3)) % 256))
      der
    (der, fcbc + 1)

/-- Transcription of `aead::split_bits`: deinterleave 16 pre-output bits into
the even (keystream) byte and the odd (authentication) byte. -/
def split_bits (first second : Nat) : Nat × Nat :=
  (List.range 4).foldl
    (fun p i =>
      let sboff_e := i <<< 1
      let sboff_o := sboff_e ^^^ 1
      let dboff0 := i
      let dboff1 := i + 4
      let even := p.1 ||| (((first >>> sboff_e) &&& 1) <<< dboff0)
      let even := even ||| (((second >>> sboff_e) &&& 1) <<< dboff1)
      let odd := p.2 ||| (((first >>> sboff_o) &&& 1) <<< dboff0)
      let odd := odd ||| (((second >>> sboff_o) &&& 1) <<< dboff1)
      (even, odd))
    (0, 0)

/-- One mixing-phase iteration of `aead::initialize`: clock the cipher eight
positions wide, feeding the pre-output byte back into both registers. -/
def init_mix_step (st : state_t) : state_t :=
  let yt := ksb8 st
  let s120 := l8 st
  let b120 := f8 st
  update_nfsr8 (update_lfsr8 st (s120 ^^^ yt)) (b120 ^^^ yt)

/-- One key-mix iteration of `aead::initialize`: additionally XOR the key
bytes `key[t + 8]` and `key[t]` into the new LFSR and NFSR bytes. -/
def init_key_step (key : List Nat) (st : state_t) (t : Nat) : state_t :=
  let ka := key.getD (t + 8) 0
  let kb := key.getD t 0
  let yt := ksb8 st
  let s120 := l8 st
  let b120 := f8 st
  update_nfsr8 (update_lfsr8 st (s120 ^^^ yt ^^^ ka)) (b120 ^^^ yt ^^^ kb)

/-- One accumulator-seeding iteration of `aead::initialize`: store the
pre-output byte into `acc[t]` and clock with zero overlay. -/
def init_acc_step (st : state_t) (t : Nat) : state_t :=
  let yt := ksb8 st
  let st := { st with acc := st.acc.set t yt }
  let s120 := l8 st
  let b120 := f8 st
  update_nfsr8 (update_lfsr8 st s120) b120

/-- One shift-register-seeding iteration of `aead::initialize`. -/
def init_sreg_step (st : state_t) (t : Nat) : state_t :=
  let yt := ksb8 st
  let st := { st with sreg := st.sreg.set t yt }
  let s120 := l8 st
  let b120 := f8 st
  update_nfsr8 (update_lfsr8 st s120) b120

/-- Transcription of `aead::initialize` (renamed: that word is a Lean keyword): seed NFSR with the key and LFSR with
the nonce plus the constant `FF FF FF 7F`, then 40 mixing clocks of width 8,
8 key-mix clocks of width 8, and 8 + 8 clocks writing the pre-output bytes
into `acc` and `sreg`.  The accumulator and shift register start from zero
placeholders; every byte of both is overwritten before use. -/
def init_cipher (key nonce : List Nat) : state_t :=
  let st : state_t :=
    { lfsr := nonce.take 12 ++ [0xff, 0xff, 0xff, 0x7f]
      nfsr := key.take 16
      acc := List.replicate 8 0
      sreg := List.replicate 8 0 }
  let st := (List.range 40).foldl (fun st _ => init_mix_step st) st
  let st := (List.range 8).foldl (init_key_step key) st
  let st := (List.range 8).foldl init_acc_step st
  (List.range 8).foldl init_sreg_step st

/-- One zero-overlay clock of width 8, as it appears inline in the mode
functions of `aead.hpp`: read the pre-output byte, then update both
registers with their plain feedback bytes. -/
def clock8 (st : state_t) : Nat × state_t :=
  let yt := ksb8 st
  let s120 := l8 st
  let b120 := f8 st
  (yt, update_nfsr8 (update_lfsr8 st s120) b120)

/-- Body of the absorption loops in `aead::auth_associated_data`: two 8-wide
clocks, deinterleave, absorb one buffer byte. -/
def absorb_byte (st : state_t) (b : Nat) : state_t :=
  let r0 := clock8 st
  let r1 := clock8 r0.2
  let splitted := split_bits r0.1 r1.1
  authenticated_byte r1.2 b splitted.2

/-- Transcription of `aead::auth_associated_data`: authenticate the DER
encoding of the length, then the associated-data bytes themselves. -/
def auth_associated_data (st : state_t) (data : List Nat) : state_t :=
  let der := encode_der data.length
  let st := (List.range der.2).foldl
    (fun st i => absorb_byte st (der.1.getD i 0)) st
  data.foldl absorb_byte st

/-- Transcription of `aead::enc_and_auth_txt`: per plaintext byte, two 8-wide
clocks, deinterleave, XOR with the even byte, absorb the plaintext byte with
the odd byte.  Returns the final state and the ciphertext bytes. -/
def enc_and_auth_txt (st : state_t) : List Nat → state_t × List Nat
  | [] => (st, [])
  | t :: rest =>
    let r0 := clock8 st
    let r1 := clock8 r0.2
    let splitted := split_bits r0.1 r1.1
    let c := t ^^^ splitted.1
    let st := authenticated_byte r1.2 t splitted.2
    let res := enc_and_auth_txt st rest
    (res.1, c :: res.2)

/-- Transcription of `aead::dec_and_auth_txt`: per ciphertext byte, two
8-wide clocks, deinterleave, XOR with the even byte, absorb the decrypted
byte with the odd byte.  Returns the final state and the plaintext bytes. -/
def dec_and_auth_txt (st : state_t) : List Nat → state_t × List Nat
  | [] => (st, [])
  | c :: rest =>
    let r0 := clock8 st
    let r1 := clock8 r0.2
    let splitted := split_bits r0.1 r1.1
    let t := c ^^^ splitted.1
    let st := authenticated_byte r1.2 t splitted.2
    let res := dec_and_auth_txt st rest
    (res.1, t :: res.2)

/-- Transcription of `aead::auth_padding_bit`: absorb the single padding byte
`0x01`. -/
def auth_padding_bit (st : state_t) : state_t :=
  absorb_byte st 0b1

end aead

namespace grain_128aead

open grain_128

/-- Transcription of `grain_128aead::encrypt`: returns the ciphertext bytes
and the 8-byte tag (the final accumulator, copied little-endian). -/
def encrypt (key nonce data txt : List Nat) : List Nat × List Nat :=
  let st := aead.init_cipher key nonce
  let st := aead.auth_associated_data st data
  let r := aead.enc_and_auth_txt st txt
  let st := aead.auth_padding_bit r.1
  (r.2, st.acc)

/-- Transcription of `grain_128aead::decrypt`: returns the plaintext buffer
as finally left in memory (zeroized on tag mismatch) and the verification
flag. -/
def decrypt (key nonce tag data enc : List Nat) : List Nat × Bool :=
  let st := aead.init_cipher key nonce
  let st := aead.auth_associated_data st data
  let r := aead.dec_and_auth_txt st enc
  let st := aead.auth_padding_bit r.1
  let flg := (List.range 8).foldl
    (fun flg i => flg || (((st.acc.getD i 0) ^^^ (tag.getD i 0)) != 0)) false
  (if flg then List.replicate r.2.length 0 else r.2, !flg)

end grain_128aead

namespace aead

open grain_128

/-- The encrypt-and-authenticate loop executed with `enc` aliased to `txt`
(in-place operation): position `i` of the shared buffer is overwritten with
the ciphertext byte before `txt[i]` is read again for authentication, so the
authenticator absorbs the ciphertext byte `c` instead of the plaintext byte
`t`. -/
def enc_and_auth_txt_inplace (st : state_t) : List Nat → state_t × List Nat
  | [] => (st, [])
  | t :: rest =>
    let r0 := clock8 st
    let r1 := clock8 r0.2
    let splitted := split_bits r0.1 r1.1
    let c := t ^^^ splitted.1
    let st := authenticated_byte r1.2 c splitted.2
    let res := enc_and_auth_txt_inplace st rest
    (res.1, c :: res.2)

end aead

namespace grain_128aead

open grain_128

/-- The encrypt entry point executed with the ciphertext buffer aliased to
the plaintext buffer, under byte-by-byte sequential memory semantics. -/
def encrypt_inplace (key nonce data txt : List Nat) : List Nat × List Nat :=
  let st := aead.init_cipher key nonce
  let st := aead.auth_associated_data st data
  let r := aead.enc_and_auth_txt_inplace st txt
  let st := aead.auth_padding_bit r.1
  (r.2, st.acc)

end grain_128aead

namespace serial

open grain_128

/-- One zero-overlay clock of the single-bit cipher, as the inline blocks of
the bit-serial mode functions perform it: read the pre-output bit, then
update both registers with their plain feedback bits. -/
def clock1 (st : state_t) : Nat × state_t :=
  let yt := ksb st
  let s127 := l st
  let b127 := f st
  (yt, update_nfsr (update_lfsr st s127) b127)

/-- Body of the bit loops of the bit-serial `aead::auth_associated_data`:
two single-bit clocks, then one accumulator update with the message bit and
one shift-register update with the odd pre-output bit. -/
def absorb_bit (st : state_t) (bit : Nat) : state_t :=
  let r0 := clock1 st
  let r1 := clock1 r0.2
  update_register (update_accumulator r1.2 bit) r1.1

/-- Bit-serial `aead::auth_associated_data` (the variant that clocks one bit
at a time): DER-encode the length, then absorb the DER bytes and the data
bytes bit by bit.  The C++ loop index `i` over `8 * len` bits is realised as
`i = 8 * byteIdx + k` with `compute_index i = (byteIdx, k)`. -/
def auth_associated_data (st : state_t) (data : List Nat) : state_t :=
  let der := aead.encode_der data.length
  let st := (List.range (der.2 <<< 3)).foldl
    (fun st i => absorb_bit st (get_bit der.1 (compute_index i))) st
  (List.range (data.length <<< 3)).foldl
    (fun st i => absorb_bit st (get_bit data (compute_index i))) st

/-- Bit-serial `aead::enc_and_auth_txt`: per plaintext bit, clock once for
the even (encryption) bit, XOR it into the output bit, clock once more for
the odd (authentication) bit, then update accumulator and shift register.
The output byte is assembled from its 8 written bits (every bit of every
output byte is stored exactly once by `set_bit`). -/
def enc_and_auth_txt (st : state_t) : List Nat → state_t × List Nat
  | [] => (st, [])
  | t :: rest =>
    let r := (List.range 8).foldl
      (fun p k =>
        let t_bit := get_bit [t] (compute_index k)
        let r0 := clock1 p.1
        let c_bit := t_bit ^^^ r0.1
        let enc := set_bit p.2 c_bit (compute_index k)
        let r1 := clock1 r0.2
        (update_register (update_accumulator r1.2 t_bit) r1.1, enc))
      (st, [0])
    let res := enc_and_auth_txt r.1 rest
    (res.1, r.2.getD 0 0 :: res.2)

/-- Bit-serial `aead::auth_padding_bit`: absorb the single padding bit 1. -/
def auth_padding_bit (st : state_t) : state_t :=
  absorb_bit st 0b1

/-- Modelled from the spec (claim C4 and spec section 4.3): the fully
bit-serial initializer.  The 8-wide `aead::initialize` under `src/` is the
only initializer in the sources; this definition spells out, clock by clock,
the behaviour the spec ascribes to it: seed the registers, run 320 mixing
clocks feeding the pre-output bit back into both registers, run 64 clocks
additionally XORing key bit `t + 64` into the LFSR bit and key bit `t` into
the NFSR bit (little-endian bit order), then write the next 64 pre-output
bits into `acc` and the following 64 into `sreg`, in order of production. -/
def init_cipher (key nonce : List Nat) : state_t :=
  let st : state_t :=
    { lfsr := nonce.take 12 ++ [0xff, 0xff, 0xff, 0x7f]
      nfsr := key.take 16
      acc := List.replicate 8 0
      sreg := List.replicate 8 0 }
  let st := (List.range 320).foldl
    (fun st _ =>
      let yt := ksb st
      let s127 := l st
      let b127 := f st
      update_nfsr (update_lfsr st (s127 ^^^ yt)) (b127 ^^^ yt))
    st
  let st := (List.range 64).foldl
    (fun st t =>
      let ka := get_bit key (compute_index (t + 64))
      let kb := get_bit key (compute_index t)
      let yt := ksb st
      let s127 := l st
      let b127 := f st
      update_nfsr (update_lfsr st (s127 ^^^ yt ^^^ ka)) (b127 ^^^ yt ^^^ kb))
    st
  let st := (List.range 64).foldl
    (fun st t =>
      let yt := ksb st
      let st := { st with acc := set_bit st.acc yt (compute_index t) }
      let s127 := l st
      let b127 := f st
      update_nfsr (update_lfsr st s127) b127)
    st
  (List.range 64).foldl
    (fun st t =>
      let yt := ksb st
      let st := { st with sreg := set_bit st.sreg yt (compute_index t) }
      let s127 := l st
      let b127 := f st
      update_nfsr (update_lfsr st s127) b127)
    st

/-- The fully bit-serial encrypt pipeline: bit-serial initializer followed by
the bit-serial mode functions. -/
def encrypt (key nonce data txt : List Nat) : List Nat × List Nat :=
  let st := init_cipher key nonce
  let st := auth_associated_data st data
  let r := enc_and_auth_txt st txt
  let st := auth_padding_bit r.1
  (r.2, st.acc)

end serial

namespace wide32

open grain_128

/-- Modelled from the spec (section 4.2): extract a 32-bit tap slice whose
bit `k` equals the tap value at clock `k` of the window. -/
def slice32 (arr : List Nat) (s : Nat) : Nat :=
  (List.range 32).foldl (fun v k => v ||| (get_bit arr (compute_index (s + k)) <<< k)) 0

/-- Modelled from the spec: 32 pre-output bits computed from the current
state, bit `k` being the pre-output formula read at taps shifted by `k`. -/
def ksb32 (st : state_t) : Nat :=
  let sl := fun i => slice32 st.lfsr i
  let sn := fun i => slice32 st.nfsr i
  let hx := ((sn 12 &&& sl 8) ^^^ (sl 13 &&& sl 20)) ^^^
    ((sn 95 &&& sl 42) ^^^ (sl 60 &&& sl 79)) ^^^ (sn 12 &&& sn 95 &&& sl 94)
  let bt := sn 2 ^^^ sn 15 ^^^ sn 36 ^^^ sn 45 ^^^ sn 64 ^^^ sn 73 ^^^ sn 89
  hx ^^^ sl 93 ^^^ bt

/-- Modelled from the spec: 32 LFSR feedback bits. -/
def l32 (st : state_t) : Nat :=
  let sl := fun i => slice32 st.lfsr i
  sl 0 ^^^ sl 7 ^^^ sl 38 ^^^ sl 70 ^^^ sl 81 ^^^ sl 96

/-- Modelled from the spec: 32 NFSR feedback bits. -/
def f32 (st : state_t) : Nat :=
  let sn := fun i => slice32 st.nfsr i
  let t0 := sn 0 ^^^ sn 26 ^^^ sn 56 ^^^ sn 91 ^^^ sn 96
  let t1 := sn 3 &&& sn 67
  let t2 := sn 11 &&& sn 13
  let t3 := sn 17 &&& sn 18
  let t4 := sn 27 &&& sn 59
  let t5 := sn 40 &&& sn 48
  let t6 := sn 61 &&& sn 65
  let t7 := sn 68 &&& sn 84
  let t8 := sn 22 &&& sn 24 &&& sn 25
  let t9 := sn 70 &&& sn 78 &&& sn 82
  let t10 := sn 88 &&& sn 92 &&& sn 93 &&& sn 95
  slice32 st.lfsr 0 ^^^ t0 ^^^ t1 ^^^ t2 ^^^ t3 ^^^ t4 ^^^ t5 ^^^ t6 ^^^
    t7 ^^^ t8 ^^^ t9 ^^^ t10

/-- Modelled from the spec: shift a 16-byte register down by 32 bits and
append the 32-bit word `w` at the top, little-endian. -/
def update32 (reg : List Nat) (w : Nat) : List Nat :=
  (List.range 16).map fun i =>
    if i < 12 then reg.getD (i + 4) 0 else (w >>> ((i - 12) <<< 3)) % 256

/-- Modelled from the spec: little-endian 32-bit load of 4 key bytes
starting at byte offset `o`. -/
def le32 (arr : List Nat) (o : Nat) : Nat :=
  (arr.getD o 0) ||| ((arr.getD (o + 1) 0) <<< 8) |||
    ((arr.getD (o + 2) 0) <<< 16) ||| ((arr.getD (o + 3) 0) <<< 24)

/-- Modelled from the spec (sections 4.2 and 4.3): the 32-wide initializer.
No 32-wide code is present under `src/`; this follows the spec text: 10
mixing clocks of width 32; 2 key-mix clocks of width 32 whose key overlays
are the little-endian 32-bit loads of `key[8..12]`,`key[12..16]` (LFSR side)
and `key[0..4]`,`key[4..8]` (NFSR side); then 2 + 2 width-32 clocks writing
the produced pre-output words into `acc` and `sreg`. -/
def init_cipher (key nonce : List Nat) : state_t :=
  let st : state_t :=
    { lfsr := nonce.take 12 ++ [0xff, 0xff, 0xff, 0x7f]
      nfsr := key.take 16
      acc := List.replicate 8 0
      sreg := List.replicate 8 0 }
  let st := (List.range 10).foldl
    (fun st _ =>
      let yt := ksb32 st
      let s96 := l32 st
      let b96 := f32 st
      { st with lfsr := update32 st.lfsr (s96 ^^^ yt),
                nfsr := update32 st.nfsr (b96 ^^^ yt) })
    st
  let st := (List.range 2).foldl
    (fun st t =>
      let ka := le32 key (8 + 4 * t)
      let kb := le32 key (4 * t)
      let yt := ksb32 st
      let s96 := l32 st
      let b96 := f32 st
      { st with lfsr := update32 st.lfsr (s96 ^^^ yt ^^^ ka),
                nfsr := update32 st.nfsr (b96 ^^^ yt ^^^ kb) })
    st
  let st := (List.range 2).foldl
    (fun st t =>
      let yt := ksb32 st
      let st := { st with acc := (List.range 8).map (fun i =>
        if 4 * t ≤ i ∧ i < 4 * t + 4 then (yt >>> ((i - 4 * t) <<< 3)) % 256
        else st.acc.getD i 0) }
      let s96 := l32 st
      let b96 := f32 st
      { st with lfsr := update32 st.lfsr s96, nfsr := update32 st.nfsr b96 })
    st
  (List.range 2).foldl
    (fun st t =>
      let yt := ksb32 st
      let st := { st with sreg := (List.range 8).map (fun i =>
        if 4 * t ≤ i ∧ i < 4 * t + 4 then (yt >>> ((i - 4 * t) <<< 3)) % 256
        else st.sreg.getD i 0) }
      let s96 := l32 st
      let b96 := f32 st
      { st with lfsr := update32 st.lfsr s96, nfsr := update32 st.nfsr b96 })
    st

/-- The 32-wide encrypt pipeline: 32-wide initializer (the spec notes that
the byte-level mode runs after initialization) followed by the byte-parallel
mode functions. -/
def encrypt (key nonce data txt : List Nat) : List Nat × List Nat :=
  let st := init_cipher key nonce
  let st := aead.auth_associated_data st data
  let r := aead.enc_and_auth_txt st txt
  let st := aead.auth_padding_bit r.1
  (r.2, st.acc)

end wide32

namespace vectors

/-- The all-zero 16-byte key used in concrete instantiations. -/
def z16 : List Nat := List.replicate 16 0

/-- The all-zero 12-byte nonce used in concrete instantiations. -/
def z12 : List Nat := List.replicate 12 0

/-- Key of the README example (Scenario C), bytes in printing order. -/
def keyC : List Nat :=
  [0x08, 0xec, 0xc6, 0xd3, 0xed, 0xaa, 0x57, 0xcb,
   0xdf, 0x4b, 0xd4, 0xb6, 0xf4, 0x38, 0x69, 0xfa]

/-- Nonce of the README example. -/
def nonceC : List Nat :=
  [0xf8, 0xf7, 0x55, 0x03, 0x4b, 0xff, 0x22, 0x7f, 0xa1, 0x07, 0xfa, 0xc0]

/-- Associated data of the README example. -/
def adC : List Nat :=
  [0xf7, 0xb0, 0x4b, 0x12, 0x05, 0x16, 0x80, 0xd1,
   0xaf, 0x94, 0x3e, 0x14, 0x2e, 0x9e, 0x0e, 0x95,
   0xe2, 0x4c, 0x6b, 0xdf, 0x75, 0x3e, 0xdb, 0x4a,
   0xa1, 0x24, 0x80, 0xcc, 0x8d, 0x17, 0x9c, 0xa5]

/-- Plaintext of the README example. -/
def ptC : List Nat :=
  [0x38, 0x93, 0x74, 0x13, 0xbe, 0xdf, 0x5c, 0x75,
   0x3d, 0x0e, 0xae, 0xbc, 0x61, 0x46, 0x7b, 0x81,
   0x4b, 0x4e, 0x6e, 0x9d, 0x6c, 0x1a, 0xb6, 0xec,
   0x4f, 0xbd, 0xe1, 0x92, 0xe4, 0x58, 0x1a, 0xfa]

/-- Expected ciphertext of the README example. -/
def ctC : List Nat :=
  [0x1c, 0xb5, 0xed, 0xd9, 0xae, 0xd8, 0x13, 0x48,
   0xdf, 0x76, 0xad, 0x4c, 0x19, 0x73, 0x22, 0xda,
   0xa0, 0xec, 0x40, 0xf9, 0x20, 0x20, 0x72, 0x5d,
   0x62, 0xfd, 0x52, 0xed, 0xf6, 0x19, 0x06, 0xc9]

/-- Expected tag of the README example. -/
def tagC : List Nat := [0x1c, 0xb4, 0x20, 0x12, 0x3b, 0x94, 0xd3, 0xa7]

end vectors

section helper_lemmas

open grain_128

theorem authenticated_byte_lfsr (st : state_t) (m k : Nat) :
    (authenticated_byte st m k).lfsr = st.lfsr := rfl

theorem authenticated_byte_nfsr (st : state_t) (m k : Nat) :
    (authenticated_byte st m k).nfsr = st.nfsr := rfl

theorem dec_of_enc (st : state_t) (txt : List Nat) :
    aead.dec_and_auth_txt st (aead.enc_and_auth_txt st txt).2 =
      ((aead.enc_and_auth_txt st txt).1, txt) := by
  induction txt generalizing st with
  | nil => simp [aead.enc_and_auth_txt, aead.dec_and_auth_txt]
  | cons t rest ih =>
    simp only [aead.enc_and_auth_txt, aead.dec_and_auth_txt]
    simp only [Nat.xor_cancel_right, ih]

theorem enc_of_dec (st : state_t) (enc : List Nat) :
    aead.enc_and_auth_txt st (aead.dec_and_auth_txt st enc).2 =
      ((aead.dec_and_auth_txt st enc).1, enc) := by
  induction enc generalizing st with
  | nil => simp [aead.enc_and_auth_txt, aead.dec_and_auth_txt]
  | cons c rest ih =>
    simp only [aead.enc_and_auth_txt, aead.dec_and_auth_txt]
    simp only [Nat.xor_cancel_right, ih]

theorem flag_fold_self (acc : List Nat) :
    (List.range 8).foldl
      (fun flg i => flg || (((acc.getD i 0) ^^^ (acc.getD i 0)) != 0))
      false = false := by
  simp [show List.range 8 = [0, 1, 2, 3, 4, 5, 6, 7] from rfl, Nat.xor_self]

end helper_lemmas

/-- C1: for every key, nonce, associated data and message, decrypting the
ciphertext and tag produced by encrypt with the same key, nonce and
associated data returns exactly the message bytes and the verification flag
`true`. -/
theorem C1_roundtrip (key nonce data txt : List Nat) :
    grain_128aead.decrypt key nonce
      (grain_128aead.encrypt key nonce data txt).2 data
      (grain_128aead.encrypt key nonce data txt).1 = (txt, true) := by
  simp only [grain_128aead.decrypt, grain_128aead.encrypt]
  rw [dec_of_enc]
  simp [flag_fold_self]

section congruence_lemmas

open grain_128

theorem clock8_congr (s1 s2 : state_t) (hl : s1.lfsr = s2.lfsr)
    (hn : s1.nfsr = s2.nfsr) :
    (aead.clock8 s1).1 = (aead.clock8 s2).1 ∧
      (aead.clock8 s1).2.lfsr = (aead.clock8 s2).2.lfsr ∧
      (aead.clock8 s1).2.nfsr = (aead.clock8 s2).2.nfsr := by
  obtain ⟨l1, n1, a1, r1⟩ := s1
  obtain ⟨l2, n2, a2, r2⟩ := s2
  simp only at hl hn
  subst hl; subst hn
  exact ⟨rfl, rfl, rfl⟩

theorem absorb_byte_congr (s1 s2 : state_t) (b1 b2 : Nat)
    (hl : s1.lfsr = s2.lfsr) (hn : s1.nfsr = s2.nfsr) :
    (aead.absorb_byte s1 b1).lfsr = (aead.absorb_byte s2 b2).lfsr ∧
      (aead.absorb_byte s1 b1).nfsr = (aead.absorb_byte s2 b2).nfsr := by
  obtain ⟨h1, h2, h3⟩ := clock8_congr s1 s2 hl hn
  obtain ⟨g1, g2, g3⟩ := clock8_congr (aead.clock8 s1).2 (aead.clock8 s2).2 h2 h3
  simp only [aead.absorb_byte, authenticated_byte_lfsr, authenticated_byte_nfsr]
  exact ⟨g2, g3⟩

theorem foldl_absorb_congr :
    ∀ (d1 d2 : List Nat) (s1 s2 : state_t), d1.length = d2.length →
      s1.lfsr = s2.lfsr → s1.nfsr = s2.nfsr →
      (d1.foldl aead.absorb_byte s1).lfsr = (d2.foldl aead.absorb_byte s2).lfsr ∧
        (d1.foldl aead.absorb_byte s1).nfsr = (d2.foldl aead.absorb_byte s2).nfsr
  | [], [], s1, s2, _, hl, hn => ⟨hl, hn⟩
  | b1 :: r1, b2 :: r2, s1, s2, hlen, hl, hn => by
    obtain ⟨g1, g2⟩ := absorb_byte_congr s1 s2 b1 b2 hl hn
    exact foldl_absorb_congr r1 r2 _ _ (by simpa using hlen) g1 g2

theorem enc_ct_congr :
    ∀ (txt : List Nat) (s1 s2 : state_t), s1.lfsr = s2.lfsr →
      s1.nfsr = s2.nfsr →
      (aead.enc_and_auth_txt s1 txt).2 = (aead.enc_and_auth_txt s2 txt).2
  | [], _, _, _, _ => rfl
  | t :: rest, s1, s2, hl, hn => by
    obtain ⟨h1, h2, h3⟩ := clock8_congr s1 s2 hl hn
    obtain ⟨g1, g2, g3⟩ :=
      clock8_congr (aead.clock8 s1).2 (aead.clock8 s2).2 h2 h3
    simp only [aead.enc_and_auth_txt, h1, g1]
    exact congrArg (List.cons _) (enc_ct_congr rest _ _
      (by simpa [authenticated_byte_lfsr] using g2)
      (by simpa [authenticated_byte_nfsr] using g3))

theorem enc_inplace_ct_congr :
    ∀ (txt : List Nat) (s1 s2 : state_t), s1.lfsr = s2.lfsr →
      s1.nfsr = s2.nfsr →
      (aead.enc_and_auth_txt_inplace s1 txt).2 =
        (aead.enc_and_auth_txt s2 txt).2
  | [], _, _, _, _ => rfl
  | t :: rest, s1, s2, hl, hn => by
    obtain ⟨h1, h2, h3⟩ := clock8_congr s1 s2 hl hn
    obtain ⟨g1, g2, g3⟩ :=
      clock8_congr (aead.clock8 s1).2 (aead.clock8 s2).2 h2 h3
    simp only [aead.enc_and_auth_txt_inplace, aead.enc_and_auth_txt, h1, g1]
    exact congrArg (List.cons _) (enc_inplace_ct_congr rest _ _
      (by simpa [authenticated_byte_lfsr] using g2)
      (by simpa [authenticated_byte_nfsr] using g3))

end congruence_lemmas

/-- C9: for a fixed key, nonce and plaintext, any two associated-data buffers
of the same length yield identical ciphertext bytes: associated data feeds
only the accumulator and the authentication shift register, never the LFSR or
NFSR, and the clock count of the absorption phase depends only on the
length. -/
theorem C9_ad_ciphertext_independence (key nonce txt d1 d2 : List Nat)
    (h : d1.length = d2.length) :
    (grain_128aead.encrypt key nonce d1 txt).1 =
      (grain_128aead.encrypt key nonce d2 txt).1 := by
  simp only [grain_128aead.encrypt, aead.auth_associated_data, h]
  obtain ⟨hl, hn⟩ := foldl_absorb_congr d1 d2 _ _ h rfl rfl
  exact enc_ct_congr txt _ _ hl hn

/-- C9 witness: two distinct one-byte associated-data buffers give the same
one-byte ciphertext. -/
theorem C9_witness :
    ([0].length = ([1] : List Nat).length) ∧
      (grain_128aead.encrypt (List.replicate 16 0) (List.replicate 12 0)
          [0] [65]).1 =
        (grain_128aead.encrypt (List.replicate 16 0) (List.replicate 12 0)
          [1] [65]).1 :=
  ⟨rfl, C9_ad_ciphertext_independence (List.replicate 16 0)
    (List.replicate 12 0) [65] [0] [1] rfl⟩

/-- C8 counterexample: encrypting in place (ciphertext buffer aliased to the
plaintext buffer) does not yield the same output as encrypting into a
distinct buffer.  With the all-zero key and nonce, empty associated data and
the single plaintext byte 0, the ciphertext bytes agree but the tags differ,
because the in-place run authenticates the already-encrypted byte. -/
theorem C8_counterexample :
    grain_128aead.encrypt_inplace (List.replicate 16 0) (List.replicate 12 0)
        [] [0] ≠
      grain_128aead.encrypt (List.replicate 16 0) (List.replicate 12 0)
        [] [0] := by
  decide

/-- C8 amended: in-place encryption produces the same ciphertext bytes as
out-of-place encryption, for messages of every length; the authentication
tag, however, may differ, because after `enc[i]` is written the loop reads
`txt[i]` again and so authenticates the ciphertext byte (the source also
declares both buffers `__restrict`, so aliasing them is outside its
contract). -/
theorem C8_inplace_ciphertext (key nonce data txt : List Nat) :
    (grain_128aead.encrypt_inplace key nonce data txt).1 =
      (grain_128aead.encrypt key nonce data txt).1 := by
  simp only [grain_128aead.encrypt_inplace, grain_128aead.encrypt]
  exact enc_inplace_ct_congr txt _ _ rfl rfl

section tag_check_lemmas

open grain_128

theorem dec_len (st : state_t) (enc : List Nat) :
    (aead.dec_and_auth_txt st enc).2.length = enc.length := by
  induction enc generalizing st with
  | nil => rfl
  | cons c rest ih => simp [aead.dec_and_auth_txt, ih]

theorem flag_fold_eq_false_iff (a b : List Nat) :
    ((List.range 8).foldl
      (fun flg i => flg || (((a.getD i 0) ^^^ (b.getD i 0)) != 0))
      false = false) ↔ ∀ i < 8, a.getD i 0 = b.getD i 0 := by
  simp only [show List.range 8 = [0, 1, 2, 3, 4, 5, 6, 7] from rfl,
    List.foldl_cons, List.foldl_nil, Bool.false_or, Bool.or_eq_false_iff,
    bne_eq_false_iff_eq, Nat.xor_eq_zero]
  constructor
  · rintro ⟨⟨⟨⟨⟨⟨⟨h0, h1⟩, h2⟩, h3⟩, h4⟩, h5⟩, h6⟩, h7⟩ i hi
    interval_cases i <;> assumption
  · intro hp
    exact ⟨⟨⟨⟨⟨⟨⟨hp 0 (by omega), hp 1 (by omega)⟩, hp 2 (by omega)⟩,
      hp 3 (by omega)⟩, hp 4 (by omega)⟩, hp 5 (by omega)⟩, hp 6 (by omega)⟩,
      hp 7 (by omega)⟩

theorem getD_ext_8 (a b : List Nat) (ha : a.length = 8) (hb : b.length = 8)
    (hp : ∀ i < 8, a.getD i 0 = b.getD i 0) : a = b := by
  apply List.ext_getElem (by omega)
  intro i h1 h2
  have hx := hp i (by omega)
  rwa [List.getD_eq_getElem a 0 h1, List.getD_eq_getElem b 0 h2] at hx

theorem padding_acc_len (st : state_t) :
    (aead.auth_padding_bit st).acc.length = 8 := by
  simp [aead.auth_padding_bit, aead.absorb_byte, grain_128.authenticated_byte,
    grain_128.to_le_bytes]

end tag_check_lemmas

/-- C2: decrypt returns `true` exactly when the provided 8-byte tag equals
the tag encrypt would emit for the same key, nonce, associated data and the
decrypted plaintext (the final accumulator); on mismatch the whole plaintext
buffer is zeroized, and on match it holds the ciphertext XORed with the
keystream, i.e. the pre-zeroization output of the decryption loop. -/
theorem C2_verify_and_zeroize (key nonce tag data enc : List Nat)
    (htag : tag.length = 8) :
    ((grain_128aead.decrypt key nonce tag data enc).2 = true ↔
      tag = (grain_128aead.encrypt key nonce data
        (aead.dec_and_auth_txt
          (aead.auth_associated_data (aead.init_cipher key nonce) data)
          enc).2).2) ∧
    ((grain_128aead.decrypt key nonce tag data enc).2 = false →
      (grain_128aead.decrypt key nonce tag data enc).1 =
        List.replicate enc.length 0) ∧
    ((grain_128aead.decrypt key nonce tag data enc).2 = true →
      (grain_128aead.decrypt key nonce tag data enc).1 =
        (aead.dec_and_auth_txt
          (aead.auth_associated_data (aead.init_cipher key nonce) data)
          enc).2) := by
  simp only [grain_128aead.decrypt, grain_128aead.encrypt]
  rw [enc_of_dec]
  set stad := aead.auth_associated_data (aead.init_cipher key nonce) data
  set r := aead.dec_and_auth_txt stad enc with hr
  set acc2 := (aead.auth_padding_bit r.1).acc with hacc
  set flg := (List.range 8).foldl
    (fun flg i => flg || ((acc2.getD i 0 ^^^ tag.getD i 0) != 0)) false
    with hflg
  have hlen : acc2.length = 8 := padding_acc_len r.1
  refine ⟨?_, ?_, ?_⟩
  · constructor
    · intro hv
      have hfalse : flg = false := by
        cases hfv : flg
        · rfl
        · rw [hfv] at hv; simp at hv
      have hp := (flag_fold_eq_false_iff acc2 tag).1 (hflg ▸ hfalse)
      exact (getD_ext_8 tag acc2 htag hlen
        (fun i hi => (hp i hi).symm)).symm ▸ rfl
    · intro he
      have hp : ∀ i < 8, acc2.getD i 0 = tag.getD i 0 := by
        intro i hi; rw [he]
      have hfalse : flg = false := (flag_fold_eq_false_iff acc2 tag).2 hp
      simp [hfalse]
  · intro hv
    have htrue : flg = true := by
      cases hfv : flg
      · rw [hfv] at hv; simp at hv
      · rfl
    have hlen2 : r.2.length = enc.length := by
      rw [hr]; exact dec_len stad enc
    rw [hlen2]
    simp [htrue]
  · intro hv
    have hfalse : flg = false := by
      cases hfv : flg
      · rfl
      · rw [hfv] at hv; simp at hv
    simp [hfalse]

/-- C2 witness: concrete application with the all-zero key and nonce, empty
associated data, the single ciphertext byte 0 and the tag that encrypt emits
for the corresponding plaintext; the tag length hypothesis holds. -/
theorem C2_witness :
    ((grain_128aead.encrypt vectors.z16 vectors.z12 [] [0]).2.length = 8) ∧
    (((grain_128aead.decrypt vectors.z16 vectors.z12
        (grain_128aead.encrypt vectors.z16 vectors.z12 [] [0]).2 []
        [0]).2 = true ↔
      (grain_128aead.encrypt vectors.z16 vectors.z12 [] [0]).2 =
        (grain_128aead.encrypt vectors.z16 vectors.z12 []
          (aead.dec_and_auth_txt
            (aead.auth_associated_data
              (aead.init_cipher vectors.z16 vectors.z12) [])
            [0]).2).2) ∧
    ((grain_128aead.decrypt vectors.z16 vectors.z12
        (grain_128aead.encrypt vectors.z16 vectors.z12 [] [0]).2 []
        [0]).2 = false →
      (grain_128aead.decrypt vectors.z16 vectors.z12
        (grain_128aead.encrypt vectors.z16 vectors.z12 [] [0]).2 []
        [0]).1 = List.replicate ([0] : List Nat).length 0) ∧
    ((grain_128aead.decrypt vectors.z16 vectors.z12
        (grain_128aead.encrypt vectors.z16 vectors.z12 [] [0]).2 []
        [0]).2 = true →
      (grain_128aead.decrypt vectors.z16 vectors.z12
        (grain_128aead.encrypt vectors.z16 vectors.z12 [] [0]).2 []
        [0]).1 =
        (aead.dec_and_auth_txt
          (aead.auth_associated_data
            (aead.init_cipher vectors.z16 vectors.z12) [])
          [0]).2)) :=
  ⟨by decide,
    C2_verify_and_zeroize vectors.z16 vectors.z12
      (grain_128aead.encrypt vectors.z16 vectors.z12 [] [0]).2 [] [0]
      (by decide)⟩

set_option maxRecDepth 100000 in
/-- C3: the README example (Scenario C) evaluates exactly: encrypt with the
given key, nonce, 32-byte associated data and 32-byte plaintext produces the
expected ciphertext and the expected tag. -/
theorem C3_readme_vector :
    grain_128aead.encrypt vectors.keyC vectors.nonceC vectors.adC vectors.ptC =
      (vectors.ctC, vectors.tagC) := by
  decide

section bit_formula_lemmas

theorem and_eq_mul_of_le_one (a b : Nat) (ha : a ≤ 1) (hb : b ≤ 1) :
    a &&& b = a * b := by
  interval_cases a <;> interval_cases b <;> rfl

theorem mod2_and_mod2 (a b : Nat) : (a % 2) &&& (b % 2) = (a % 2) * (b % 2) :=
  and_eq_mul_of_le_one _ _ (by omega) (by omega)

theorem mul_mod2_and (a b c : Nat) :
    ((a % 2) * (b % 2)) &&& (c % 2) = (a % 2) * (b % 2) * (c % 2) :=
  and_eq_mul_of_le_one _ _
    (mul_le_one' (by omega) (by omega)) (by omega)

theorem compute_index_eq (i : Nat) :
    grain_128.compute_index i = (i / 8, i % 8) := by
  have h1 : i >>> 3 = i / 8 := by rw [Nat.shiftRight_eq_div_pow]
  have h2 : i &&& 7 = i % 8 := by
    have hx := Nat.and_pow_two_sub_one_eq_mod i 3
    norm_num at hx
    exact hx
  rw [grain_128.compute_index, h1, h2]

end bit_formula_lemmas

/-- C5: the single-bit pre-output function `ksb` returns `h` XOR `LFSR[93]`
XOR the seven NFSR taps 2, 15, 36, 45, 64, 73, 89, where
`h = x0 x1 + x2 x3 + x4 x5 + x6 x7 + x0 x4 x8` over the taps
`(NFSR[12], LFSR[8], LFSR[13], LFSR[20], NFSR[95], LFSR[42], LFSR[60],
LFSR[79], LFSR[94])`, register bit `i` being read from bit position `i mod 8`
of byte `i div 8`. -/
theorem C5_ksb_formula (st : grain_128.state_t) :
    grain_128.ksb st =
      (let bL := fun i : Nat => ((st.lfsr.getD (i / 8) 0) >>> (i % 8)) % 2
       let bN := fun i : Nat => ((st.nfsr.getD (i / 8) 0) >>> (i % 8)) % 2
       (((bN 12 * bL 8) ^^^ (bL 13 * bL 20)) ^^^
          ((bN 95 * bL 42) ^^^ (bL 60 * bL 79)) ^^^
          (bN 12 * bN 95 * bL 94)) ^^^
        bL 93 ^^^ (bN 2 ^^^ bN 15 ^^^ bN 36 ^^^ bN 45 ^^^ bN 64 ^^^ bN 73 ^^^
          bN 89)) := by
  simp only [grain_128.ksb, grain_128.h, grain_128.get_bit, compute_index_eq,
    Nat.and_one_is_mod]
  norm_num
  simp only [mod2_and_mod2, mul_mod2_and]

section der_lemmas

theorem getD_set_ne (l : List Nat) (i j v : Nat) (hne : i ≠ j) :
    (l.set i v).getD j 0 = l.getD j 0 := by
  simp [List.getD, List.getElem?_set_ne hne]

theorem getD_set_self (l : List Nat) (i v : Nat) (h : i < l.length) :
    (l.set i v).getD i 0 = v := by
  simp [List.getD, List.getElem?_set_self, h]

theorem encode_payload_len (dlen m : Nat) (d0 : List Nat) (n : Nat) :
    ((List.range n).foldl
      (fun d j => d.set (j + 1)
        (((dlen &&& (0xFF <<< ((m - (j + 1)) <<< 3))) >>>
          ((m - (j + 1)) <<< 3)) % 256)) d0).length = d0.length := by
  induction n with
  | zero => rfl
  | succ n ih =>
    rw [List.range_succ, List.foldl_append]
    simp [ih]

theorem encode_payload_getD (dlen m : Nat) (d0 : List Nat) :
    ∀ n j, n < d0.length →
      ((List.range n).foldl
        (fun d j => d.set (j + 1)
          (((dlen &&& (0xFF <<< ((m - (j + 1)) <<< 3))) >>>
            ((m - (j + 1)) <<< 3)) % 256)) d0).getD j 0 =
      if 1 ≤ j ∧ j ≤ n then
        ((dlen &&& (0xFF <<< ((m - j) <<< 3))) >>> ((m - j) <<< 3)) % 256
      else d0.getD j 0 := by
  intro n
  induction n with
  | zero =>
    intro j _
    rw [show List.range 0 = ([] : List Nat) from rfl, List.foldl_nil,
      if_neg (by omega)]
  | succ n ih =>
    intro j hn
    rw [List.range_succ, List.foldl_append, List.foldl_cons, List.foldl_nil]
    by_cases hj : j = n + 1
    · subst hj
      rw [getD_set_self _ _ _ (by rw [encode_payload_len]; omega),
        if_pos (by omega)]
    · rw [getD_set_ne _ _ _ _ (by omega), ih j (by omega)]
      by_cases h1 : 1 ≤ j ∧ j ≤ n
      · rw [if_pos h1, if_pos ⟨h1.1, by omega⟩]
      · rw [if_neg h1, if_neg (by omega)]

theorem mask_shift (dlen s : Nat) :
    ((dlen &&& (0xFF <<< s)) >>> s) % 256 = (dlen >>> s) % 256 := by
  have h1 : (dlen &&& (0xFF <<< s)) >>> s =
      (dlen >>> s) &&& ((0xFF <<< s) >>> s) := by
    apply Nat.eq_of_testBit_eq
    intro i
    simp [Nat.testBit_shiftRight, Nat.testBit_and]
  have h2 : (0xFF <<< s) >>> s = 0xFF := by
    apply Nat.eq_of_testBit_eq
    intro i
    simp [Nat.testBit_shiftRight, Nat.testBit_shiftLeft]
  have h3 : ∀ x : Nat, x &&& 0xFF = x % 256 := by
    intro x
    have hx := Nat.and_pow_two_sub_one_eq_mod x 8
    norm_num at hx
    exact hx
  rw [h1, h2, h3]
  omega

theorem fcbc_eq_ceil (bw : Nat) :
    (bw >>> 3) + (if (bw &&& 7) > 0 then 1 else 0) = (bw + 7) / 8 := by
  have h1 : bw >>> 3 = bw / 8 := by rw [Nat.shiftRight_eq_div_pow]
  have h2 : bw &&& 7 = bw % 8 := by
    have hx := Nat.and_pow_two_sub_one_eq_mod bw 3
    norm_num at hx
    exact hx
  rw [h1, h2]
  by_cases hz : bw % 8 > 0
  · rw [if_pos hz]; omega
  · rw [if_neg hz]; omega

theorem or_eq_xor_128 (n : Nat) (h1 : 1 ≤ n) (h8 : n ≤ 8) :
    (0x80 ^^^ n) % 256 = 0x80 ||| n := by
  interval_cases n <;> rfl

end der_lemmas

/-- C6: `encode_der` yields the single byte `dlen` when `dlen < 128`, and
otherwise the byte `0x80 OR n` followed by the `n` bytes of `dlen` in
big-endian order, with `n = ceil(bit_width(dlen) / 8)`; the returned length
is 1 in the short form and `n + 1 ≤ 9` in the long form. -/
theorem C6_encode_der (dlen : Nat) (hd : dlen < 2 ^ 64) :
    (dlen < 128 → (aead.encode_der dlen).1.take 1 = [dlen] ∧
      (aead.encode_der dlen).2 = 1) ∧
    (128 ≤ dlen →
      (aead.encode_der dlen).1.take ((Nat.log2 dlen + 1 + 7) / 8 + 1) =
        (0x80 ||| ((Nat.log2 dlen + 1 + 7) / 8)) ::
          (List.range ((Nat.log2 dlen + 1 + 7) / 8)).map
            (fun i =>
              (dlen >>> (((Nat.log2 dlen + 1 + 7) / 8 - 1 - i) * 8)) % 256) ∧
      (aead.encode_der dlen).2 = (Nat.log2 dlen + 1 + 7) / 8 + 1 ∧
      (Nat.log2 dlen + 1 + 7) / 8 + 1 ≤ 9) := by
  constructor
  · intro hlt
    rw [aead.encode_der, if_pos hlt]
    constructor
    · have hm : dlen % 256 = dlen := Nat.mod_eq_of_lt (by omega)
      simp [List.replicate, hm]
    · rfl
  · intro hge
    have hz : dlen ≠ 0 := by omega
    have hlog : Nat.log2 dlen < 64 := (Nat.log2_lt hz).2 hd
    have hlog2 : 7 ≤ Nat.log2 dlen := (Nat.le_log2 hz).2 (by omega)
    simp only [aead.encode_der, if_neg (by omega : ¬ dlen < 128), if_neg hz,
      fcbc_eq_ceil]
    have hn1 : 1 ≤ (Nat.log2 dlen + 1 + 7) / 8 := by omega
    have hn8 : (Nat.log2 dlen + 1 + 7) / 8 ≤ 8 := by omega
    generalize hgen : (Nat.log2 dlen + 1 + 7) / 8 = n at hn1 hn8 ⊢
    refine ⟨?_, by trivial, by omega⟩
    have hlen9 : ((List.range n).foldl
        (fun d j => d.set (j + 1)
          (((dlen &&& (0xFF <<< ((n - (j + 1)) <<< 3))) >>>
            ((n - (j + 1)) <<< 3)) % 256))
        ((List.replicate 9 0).set 0 ((0x80 ^^^ n) % 256))).length = 9 := by
      rw [encode_payload_len]
      simp
    apply List.ext_getElem
    · simp only [List.length_take, hlen9, List.length_cons, List.length_map,
        List.length_range]
      omega
    · intro i hi1 hi2
      have hi : i < n + 1 := by
        simp only [List.length_take, hlen9] at hi1
        omega
      have hflen : i < ((List.range n).foldl
          (fun d j => d.set (j + 1)
            (((dlen &&& (0xFF <<< ((n - (j + 1)) <<< 3))) >>>
              ((n - (j + 1)) <<< 3)) % 256))
          ((List.replicate 9 0).set 0 ((0x80 ^^^ n) % 256))).length := by
        rw [hlen9]; omega
      rw [List.getElem_take, ← List.getD_eq_getElem _ 0 hflen]
      rw [encode_payload_getD dlen n _ n i
        (by simp only [List.length_set, List.length_replicate]; omega)]
      cases i with
      | zero =>
        rw [if_neg (by omega), getD_set_self _ _ _ (by simp),
          or_eq_xor_128 n hn1 hn8]
        rfl
      | succ k =>
        rw [if_pos ⟨by omega, by omega⟩]
        rw [List.getElem_cons_succ, List.getElem_map, List.getElem_range]
        rw [mask_shift]
        have harith : (n - (k + 1)) <<< 3 = (n - 1 - k) * 8 := by
          rw [Nat.shiftLeft_eq]
          norm_num
          omega
        rw [harith]

/-- C6 witness: the long form at `dlen = 300` (DER bytes `82 01 2C`,
length 3) and the hypothesis `300 < 2^64`. -/
theorem C6_witness :
    (300 < 2 ^ 64) ∧
    ((300 < 128 → (aead.encode_der 300).1.take 1 = [300] ∧
      (aead.encode_der 300).2 = 1) ∧
    (128 ≤ 300 →
      (aead.encode_der 300).1.take ((Nat.log2 300 + 1 + 7) / 8 + 1) =
        (0x80 ||| ((Nat.log2 300 + 1 + 7) / 8)) ::
          (List.range ((Nat.log2 300 + 1 + 7) / 8)).map
            (fun i =>
              ((300 : Nat) >>> (((Nat.log2 300 + 1 + 7) / 8 - 1 - i) * 8)) %
                256) ∧
      (aead.encode_der 300).2 = (Nat.log2 300 + 1 + 7) / 8 + 1 ∧
      (Nat.log2 300 + 1 + 7) / 8 + 1 ≤ 9)) :=
  ⟨by decide, C6_encode_der 300 (by decide)⟩

/-- C10: for every 64-bit length value, `encode_der` keeps its 9-byte buffer
at length 9 (every store lands at an index between 0 and 8) and returns a
useful-byte count between 1 and 9, so the callers' loop over the returned
count never indexes past the 9-byte array. -/
theorem C10_encode_der_bounds (dlen : Nat) (hd : dlen < 2 ^ 64) :
    1 ≤ (aead.encode_der dlen).2 ∧ (aead.encode_der dlen).2 ≤ 9 ∧
      (aead.encode_der dlen).1.length = 9 := by
  by_cases hlt : dlen < 128
  · rw [aead.encode_der, if_pos hlt]
    refine ⟨by omega, by omega, by simp⟩
  · have hz : dlen ≠ 0 := by omega
    have hlog : Nat.log2 dlen < 64 := (Nat.log2_lt hz).2 hd
    simp only [aead.encode_der, if_neg hlt, if_neg hz, fcbc_eq_ceil]
    refine ⟨by omega, by omega, ?_⟩
    rw [encode_payload_len]
    simp

/-- C10 witness: the maximal 64-bit length value. -/
theorem C10_witness :
    (2 ^ 64 - 1 < 2 ^ 64) ∧
    (1 ≤ (aead.encode_der (2 ^ 64 - 1)).2 ∧
      (aead.encode_der (2 ^ 64 - 1)).2 ≤ 9 ∧
      (aead.encode_der (2 ^ 64 - 1)).1.length = 9) :=
  ⟨by decide, C10_encode_der_bounds (2 ^ 64 - 1) (by decide)⟩
